import Mathlib

/-!
Shallow embedding of the network-trace core of `gww-network-trace`
(`gwwnetworktrace/gww_gis_tools/trace_gis/trace_sewer.py` and the graph-cache
key computations of `gwwnetworktrace/gww_nt_processing/graph_helpers.py`),
together with theorems settling the specification claims about it.

Python values that can be either strings or integers (node identifiers, pipe
identifiers, QGIS feature ids) are embedded as the sum type `Val`.  Python
`dict`/`collections.defaultdict` objects are embedded as insertion-ordered
association lists (`DDict`), with the defaultdict "fabricate the default on
lookup of a missing key" behaviour modelled explicitly by `DDict.access`,
which returns both the looked-up value and the possibly-grown dictionary.
Python `set` objects are embedded as `Finset Val`.  Exceptions are embedded
with `Except PyError`.
-/

namespace GwwTrace

/-- A Python value that is either a string or an integer
(`Union[str, int]` in the source annotations). -/
inductive Val where
  | s (v : String)
  | i (v : Int)
deriving DecidableEq, Repr

/-- Python truthiness of a `Val` (`""` and `0` are falsy). -/
def Val.truthy : Val → Bool
  | .s v => v ≠ ""
  | .i v => v ≠ 0

/-- `class DIRECTION(Enum)` with members `U = "upstream"`, `D = "downstream"`. -/
inductive DIRECTION where
  | U
  | D
deriving DecidableEq, Repr

/-- The `.value` of a `DIRECTION` member. -/
def DIRECTION.value : DIRECTION → String
  | .U => "upstream"
  | .D => "downstream"

/-- The `.name` of a `DIRECTION` member (Python enum member name). -/
def DIRECTION.name : DIRECTION → String
  | .U => "U"
  | .D => "D"

/-! ### Association-list primitives used to embed Python dicts -/

/-- Lookup in an association list (`d[k]` when the key is present,
`k in d` test via `Option.isSome`). -/
def findEntry {β : Type} : List (Val × β) → Val → Option β
  | [], _ => none
  | e :: es, k => if e.1 = k then some e.2 else findEntry es k

/-- `d[k] = v` on a Python dict: replace the value at an existing key in
place, otherwise append a fresh entry (insertion order preserved). -/
def setEntry {β : Type} : List (Val × β) → Val → β → List (Val × β)
  | [], k, v => [(k, v)]
  | e :: es, k, v => if e.1 = k then (k, v) :: es else e :: setEntry es k v

/-- `d[k].append(x)` on a `defaultdict(list)`: append to the existing list,
or create the entry `[x]` (the defaultdict fabricates `[]` first). -/
def appendEntry {γ : Type} : List (Val × List γ) → Val → γ → List (Val × List γ)
  | [], k, x => [(k, [x])]
  | e :: es, k, x => if e.1 = k then (e.1, e.2 ++ [x]) :: es else e :: appendEntry es k x

/-- A `collections.defaultdict` (or plain dict) keyed by `Val`, embedded as an
insertion-ordered association list with unique keys. -/
structure DDict (β : Type) where
  entries : List (Val × β)
deriving DecidableEq, Repr

namespace DDict

/-- Non-mutating lookup: `d[k]` when the key exists. -/
def find? {β : Type} (d : DDict β) (k : Val) : Option β :=
  findEntry d.entries k

/-- The value a defaultdict lookup yields, viewed as a total function
(missing keys behave as the default). -/
def getD {β : Type} (d : DDict β) (dflt : β) (k : Val) : β :=
  (d.find? k).getD dflt

/-- A defaultdict subscript `d[k]`: returns the stored value if the key is
present; otherwise inserts the default for that key (mutation-on-read) and
returns it.  The second component is the dictionary after the access. -/
def access {β : Type} (d : DDict β) (dflt : β) (k : Val) : β × DDict β :=
  match d.find? k with
  | some v => (v, d)
  | none => (dflt, ⟨d.entries ++ [(k, dflt)]⟩)

/-- `d[k].append(x)` for a `defaultdict(list)`. -/
def appendVal {γ : Type} (d : DDict (List γ)) (k : Val) (x : γ) : DDict (List γ) :=
  ⟨appendEntry d.entries k x⟩

/-- The key list of the dictionary, in insertion order. -/
def keys {β : Type} (d : DDict β) : List Val :=
  d.entries.map Prod.fst

end DDict

/-! ### The `Graph` data structure (`trace_sewer.Graph`) -/

/-- `class Graph` of `trace_sewer.py`:
`direction`, `nodes : defaultdict(list)`, `pipes : defaultdict(list)`,
`qgis_fids : dict` and `qgis_parcel_fids : defaultdict(list)`. -/
structure Graph where
  direction : DIRECTION
  nodes : DDict (List Val)
  pipes : DDict (List Val)
  qgis_fids : List (Val × Val)
  qgis_parcel_fids : DDict (List Val)
deriving DecidableEq, Repr

/-- `Graph.__init__`: a fresh graph with the given direction and empty
dictionaries. -/
def Graph.init (direction : DIRECTION) : Graph :=
  ⟨direction, ⟨[]⟩, ⟨[]⟩, [], ⟨[]⟩⟩

/-- `Graph.add_edge(start_node, end_node, pipe_id, qgis_fid=None)`:
direction `U` appends `start_node` to `nodes[end_node]` and `pipe_id` to
`pipes[end_node]`; direction `D` appends `end_node` to `nodes[start_node]`
and `pipe_id` to `pipes[start_node]`; then `if qgis_fid:` (Python truthiness)
sets `qgis_fids[pipe_id] = qgis_fid`. -/
def Graph.add_edge (g : Graph) (start_node end_node pipe_id : Val)
    (qgis_fid : Option Val) : Graph :=
  let g1 : Graph :=
    match g.direction with
    | .U => { g with nodes := g.nodes.appendVal end_node start_node,
                     pipes := g.pipes.appendVal end_node pipe_id }
    | .D => { g with nodes := g.nodes.appendVal start_node end_node,
                     pipes := g.pipes.appendVal start_node pipe_id }
  match qgis_fid with
  | some v =>
      if v.truthy then { g1 with qgis_fids := setEntry g1.qgis_fids pipe_id v } else g1
  | none => g1

/-- `Graph.add_qgis_parcel_ids(branches_info)`: for each branch record,
append its `PARCEL_FID` to `qgis_parcel_fids[branch["PIPE_ID"]]`.  A branch
record is embedded as the pair (PIPE_ID value, PARCEL_FID value). -/
def Graph.add_qgis_parcel_ids (g : Graph) (branches_info : List (Val × Val)) : Graph :=
  { g with qgis_parcel_fids :=
      branches_info.foldl (fun d b => d.appendVal b.1 b.2) g.qgis_parcel_fids }

/-! ### `Graph.from_dicts` -/

/-- A Python exception surfaced by the embedded code. -/
inductive PyError where
  | stopIteration
  | keyError (k : String)
  | keyErrorOther
  | typeError
  | valueError
  | notImplementedError
deriving DecidableEq, Repr

instance exceptDecEq {ε α : Type} [DecidableEq ε] [DecidableEq α] :
    DecidableEq (Except ε α) := fun a b =>
  match a, b with
  | .ok x, .ok y =>
    if h : x = y then .isTrue (by rw [h]) else .isFalse (by intro hc; cases hc; exact h rfl)
  | .error x, .error y =>
    if h : x = y then .isTrue (by rw [h]) else .isFalse (by intro hc; cases hc; exact h rfl)
  | .ok _, .error _ => .isFalse (by intro hc; cases hc)
  | .error _, .ok _ => .isFalse (by intro hc; cases hc)

/-- An edge record (a Python dict row), embedded as an insertion-ordered
association list from field name to value. -/
def Record : Type := List (String × Val)

/-- The `.keys()` view of a record. -/
def Record.fields (r : Record) : List String :=
  r.map Prod.fst

/-- `link[k]` on a record, as an `Option`. -/
def Record.get? (r : Record) (k : String) : Option Val :=
  (r.find? (fun e => e.1 = k)).map Prod.snd

/-- `SUPPORTED_KEYS` of `Graph.from_dicts`. -/
def SUPPORTED_KEYS : List String :=
  ["START_NODE", "END_NODE", "PIPE_ID", "QGIS_FID"]

/-- `keys = [f for f in SUPPORTED_KEYS if f in fields]` where `fields` is the
key view of the FIRST record only. -/
def usedKeys (first : Record) : List String :=
  SUPPORTED_KEYS.filter (fun k => k ∈ first.fields)

/-- `tuple(link[k] for k in keys)`: the field values of `link` in `keys`
order; a missing key raises `KeyError` (at the first missing key, in order). -/
def getVals (link : Record) : List String → Except PyError (List Val)
  | [] => .ok []
  | k :: ks =>
    match link.get? k with
    | none => .error (.keyError k)
    | some v => (getVals link ks).map (fun vs => v :: vs)

/-- `self.add_edge(*values)`: fewer than three positional arguments raise
`TypeError`; three arguments leave `qgis_fid = None`; four bind it. -/
def callAddEdge (g : Graph) (vals : List Val) : Except PyError Graph :=
  match vals with
  | [a, b, c] => .ok (g.add_edge a b c none)
  | [a, b, c, d] => .ok (g.add_edge a b c (some d))
  | _ => .error .typeError

/-- One iteration of the `for link in links:` loop of `from_dicts`:
evaluate the argument tuple, then call `add_edge` with it. -/
def fromDictsStep (g : Graph) (link : Record) (ks : List String) : Except PyError Graph :=
  match getVals link ks with
  | .error e => .error e
  | .ok vals => callAddEdge g vals

def fromDictsLoop (ks : List String) : Graph → List Record → Except PyError Graph
  | g, [] => .ok g
  | g, link :: rest =>
    match fromDictsStep g link ks with
    | .error e => .error e
    | .ok g' => fromDictsLoop ks g' rest

/-- `Graph.from_dicts(links)`: `next(iter(links))` raises `StopIteration` on
an empty sequence; otherwise the projection keys are computed from the first
record and every record is consumed through `add_edge`. -/
def Graph.from_dicts (g : Graph) (links : List Record) : Except PyError Graph :=
  match links with
  | [] => .error .stopIteration
  | first :: _ => fromDictsLoop (usedKeys first) g links

/-! ### The trace engine (`trace_sewer.Trace.trace`)

Python `set` objects are embedded as insertion-ordered duplicate-free lists:
`sadd` is `set.add`, `supdate` is `set.update`, and Python's extensional set
equality corresponds to equality of the `List.toFinset` images. -/

/-- Python `==` on two sets embedded as lists: equality of the element sets
(mutual containment), irrespective of insertion order or duplicates. -/
def listSetEq (a b : List Val) : Bool :=
  a.all (fun x => x ∈ b) && b.all (fun x => x ∈ a)

/-- `s.add(x)` on a Python set. -/
def sadd (s : List Val) (x : Val) : List Val :=
  if x ∈ s then s else s ++ [x]

/-- `s.update(xs)` on a Python set. -/
def supdate (s : List Val) (xs : List Val) : List Val :=
  xs.foldl sadd s

/-- The loop state of `Trace.trace`: the explicit stack `node_queue` (embedded
with the head of the list as the stack top, so Python's
`node_queue.extend(next_nodes)` becomes prepending `next_nodes.reverse`),
the three result sets, and the graph's two defaultdicts, which the loop
mutates through defaultdict reads. -/
structure LoopState where
  queue : List Val
  pipesVisited : List Val
  nodesVisited : List Val
  endOfPath : List Val
  gnodes : DDict (List Val)
  gpipes : DDict (List Val)
deriving DecidableEq, Repr

/-- The `while node_queue:` loop of `Trace.trace`, with explicit fuel.
One unit of fuel is consumed per iteration; `none` means the fuel ran out
with the stack non-empty (the caller `traceOpt` supplies provably
sufficient fuel).  Branches, in source order: `break` on a falsy
`stop_node(next_node)`; skip an already-visited node; otherwise mark
visited, read `nodes[next_node]` and `pipes[next_node]` (defaultdict
accesses that may insert empty entries), record a dead end when the
neighbor list is empty, push the neighbors, and collect the pipes. -/
def traceRun (pred : Val → Bool) : Nat → LoopState → Option LoopState
  | fuel, st =>
    match st.queue with
    | [] => some st
    | n :: rest =>
      match fuel with
      | 0 => none
      | fuel' + 1 =>
        if pred n = false then
          some { st with queue := rest,
                         nodesVisited := sadd st.nodesVisited n,
                         endOfPath := sadd st.endOfPath n }
        else if n ∈ st.nodesVisited then
          traceRun pred fuel' { st with queue := rest }
        else
          let acc1 := st.gnodes.access [] n
          let acc2 := st.gpipes.access [] n
          traceRun pred fuel'
            { queue := acc1.1.reverse ++ rest,
              pipesVisited := supdate st.pipesVisited acc2.1,
              nodesVisited := sadd st.nodesVisited n,
              endOfPath := if acc1.1.isEmpty then sadd st.endOfPath n else st.endOfPath,
              gnodes := acc1.2,
              gpipes := acc2.2 }

/-- The node identifiers occurring in the adjacency values of the
dictionary (every node the loop can ever push). -/
def DDict.valueNodeList (d : DDict (List Val)) : List Val :=
  (d.entries.map Prod.snd).flatten

/-- The largest adjacency-list length stored in the dictionary. -/
def DDict.maxValLen (d : DDict (List Val)) : Nat :=
  (d.entries.map (fun e => e.2.length)).foldr max 0

/-- The initial loop state of `Trace.trace(first_node)` on graph `g`. -/
def initState (g : Graph) (first : Val) : LoopState :=
  ⟨[first], [], [], [], g.nodes, g.pipes⟩

/-- Fuel that provably suffices for the loop to reach its exit condition. -/
def fuelBound (g : Graph) (_first : Val) : Nat :=
  (g.nodes.maxValLen + 1) * (g.nodes.valueNodeList.dedup.length + 1) + 1

/-- The loop of `Trace.trace` run to completion on graph `g` from
`first` with stop predicate `pred`. -/
def traceOpt (g : Graph) (pred : Val → Bool) (first : Val) : Option LoopState :=
  traceRun pred (fuelBound g first) (initState g first)

/-- `class TraceResult` (the `trace_summary` diagnostic field is omitted:
it never affects the edge/node sets).  The three fields are Python sets,
embedded as duplicate-free lists. -/
structure TraceResult where
  pipes : List Val
  nodes : List Val
  end_of_path_nodes : List Val
deriving DecidableEq, Repr

/-- `Trace(graph, stop_node).trace(first_node)`: the returned `TraceResult`
together with the graph as it stands after the call (the loop's defaultdict
reads are the only way the call can change it). -/
def Trace.trace (g : Graph) (pred : Val → Bool) (first : Val) :
    Option (TraceResult × Graph) :=
  (traceOpt g pred first).map (fun fin =>
    (⟨fin.pipesVisited, fin.nodesVisited, fin.endOfPath⟩,
     { g with nodes := fin.gnodes, pipes := fin.gpipes }))

/-- The default `stop_node` predicate: `lambda x: True`. -/
def defaultStop : Val → Bool := fun _ => true

/-! ### Lemmas about the dictionary primitives -/

theorem findEntry_append {β : Type} (l₁ l₂ : List (Val × β)) (k : Val) :
    findEntry (l₁ ++ l₂) k = (findEntry l₁ k).or (findEntry l₂ k) := by
  induction l₁ with
  | nil => simp [findEntry]
  | cons e es ih => by_cases h : e.1 = k <;> simp [findEntry, h, ih]

theorem access_fst {β : Type} (d : DDict β) (dflt : β) (k : Val) :
    (d.access dflt k).1 = d.getD dflt k := by
  unfold DDict.access DDict.getD
  cases h : d.find? k <;> simp [h]

theorem access_getD (d : DDict (List Val)) (k k' : Val) :
    (d.access [] k).2.getD [] k' = d.getD [] k' := by
  unfold DDict.access
  cases h : d.find? k with
  | some v => simp
  | none =>
    simp only [DDict.getD, DDict.find?, findEntry_append]
    cases h' : findEntry d.entries k' with
    | some v => simp [h']
    | none =>
      by_cases hkk : k = k' <;> simp [findEntry, hkk, h']

theorem access_valueNodeList (d : DDict (List Val)) (k : Val) :
    (d.access [] k).2.valueNodeList = d.valueNodeList := by
  unfold DDict.access
  cases h : d.find? k with
  | some v => simp
  | none => simp [DDict.valueNodeList]

theorem access_maxValLen (d : DDict (List Val)) (k : Val) :
    (d.access [] k).2.maxValLen = d.maxValLen := by
  unfold DDict.access
  cases h : d.find? k with
  | some v => simp
  | none => simp [DDict.maxValLen, List.foldr_append]

theorem findEntry_mem_values {β : Type} :
    ∀ (l : List (Val × β)) (k : Val) (v : β),
      findEntry l k = some v → v ∈ l.map Prod.snd := by
  intro l
  induction l with
  | nil => intro k v h; simp [findEntry] at h
  | cons e es ih =>
    intro k v h
    by_cases he : e.1 = k
    · simp [findEntry, he] at h
      simp [← h]
    · simp [findEntry, he] at h
      simp [ih k v h]

theorem mem_getD_mem_valueNodeList (d : DDict (List Val)) (k x : Val)
    (hx : x ∈ d.getD [] k) : x ∈ d.valueNodeList := by
  unfold DDict.getD at hx
  cases h : d.find? k with
  | none => simp [h] at hx
  | some v =>
    rw [h] at hx
    simp only [Option.getD_some] at hx
    have hv := findEntry_mem_values d.entries k v h
    unfold DDict.valueNodeList
    exact List.mem_flatten.mpr ⟨v, hv, hx⟩

theorem le_foldr_max (l : List Nat) (a : Nat) (ha : a ∈ l) : a ≤ l.foldr max 0 := by
  induction l with
  | nil => simp at ha
  | cons b bs ih =>
    rcases List.mem_cons.mp ha with h | h
    · subst h; exact le_max_left _ _
    · exact le_trans (ih h) (le_max_right _ _)

theorem getD_length_le_maxValLen (d : DDict (List Val)) (k : Val) :
    (d.getD [] k).length ≤ d.maxValLen := by
  unfold DDict.getD
  cases h : d.find? k with
  | none => simp
  | some v =>
    simp only [Option.getD_some]
    have hv := findEntry_mem_values d.entries k v h
    obtain ⟨e, he, hev⟩ := List.mem_map.mp hv
    exact le_foldr_max _ _ (List.mem_map.mpr ⟨e, he, by simp [hev]⟩)

/-! ### Step equations for the trace loop -/

theorem traceRun_nil (pred : Val → Bool) (fuel : Nat) (st : LoopState)
    (h : st.queue = []) : traceRun pred fuel st = some st := by
  rw [traceRun, h]

theorem traceRun_stop (pred : Val → Bool) (fuel : Nat) (st : LoopState)
    (n : Val) (rest : List Val) (hq : st.queue = n :: rest) (hp : pred n = false) :
    traceRun pred (fuel + 1) st =
      some { st with queue := rest,
                     nodesVisited := sadd st.nodesVisited n,
                     endOfPath := sadd st.endOfPath n } := by
  rw [traceRun, hq]
  simp [hp]

theorem traceRun_visited (pred : Val → Bool) (fuel : Nat) (st : LoopState)
    (n : Val) (rest : List Val) (hq : st.queue = n :: rest) (hp : pred n = true)
    (hv : n ∈ st.nodesVisited) :
    traceRun pred (fuel + 1) st = traceRun pred fuel { st with queue := rest } := by
  rw [traceRun, hq]
  simp [hp, hv]

theorem traceRun_new (pred : Val → Bool) (fuel : Nat) (st : LoopState)
    (n : Val) (rest : List Val) (hq : st.queue = n :: rest) (hp : pred n = true)
    (hv : n ∉ st.nodesVisited) :
    traceRun pred (fuel + 1) st = traceRun pred fuel
      { queue := (st.gnodes.access [] n).1.reverse ++ rest,
        pipesVisited := supdate st.pipesVisited (st.gpipes.access [] n).1,
        nodesVisited := sadd st.nodesVisited n,
        endOfPath := if (st.gnodes.access [] n).1.isEmpty then sadd st.endOfPath n
                     else st.endOfPath,
        gnodes := (st.gnodes.access [] n).2,
        gpipes := (st.gpipes.access [] n).2 } := by
  rw [traceRun, hq]
  simp [hp, hv]

/-! ### Termination of the trace loop -/

/-- The decreasing measure of the loop: unvisited candidate nodes weighted by
one more than the longest adjacency list, plus the stack height. -/
def stMeasure (L : Nat) (T : Finset Val) (st : LoopState) : Nat :=
  (L + 1) * (T \ st.nodesVisited.toFinset).card + st.queue.length

theorem sadd_toFinset (s : List Val) (x : Val) :
    (sadd s x).toFinset = insert x s.toFinset := by
  unfold sadd
  by_cases h : x ∈ s
  · simp [h, List.mem_toFinset.mpr h, Finset.insert_eq_self.mpr]
  · simp only [h, if_false, List.toFinset_append, List.toFinset_cons, List.toFinset_nil,
      insert_emptyc_eq]
    rw [Finset.union_comm, ← Finset.insert_eq]

theorem traceRun_some (pred : Val → Bool) (L : Nat) (T : Finset Val) :
    ∀ fuel st, (∀ x ∈ st.queue, x ∈ T) → (∀ x ∈ st.gnodes.valueNodeList, x ∈ T) →
      st.gnodes.maxValLen ≤ L → stMeasure L T st ≤ fuel →
      ∃ fin, traceRun pred fuel st = some fin := by
  intro fuel
  induction fuel with
  | zero =>
    intro st _ _ _ hm
    unfold stMeasure at hm
    have hq : st.queue = [] := List.length_eq_zero.mp (by omega)
    exact ⟨st, traceRun_nil pred 0 st hq⟩
  | succ fuel ih =>
    intro st hqT hvT hL hm
    cases hq : st.queue with
    | nil => exact ⟨st, traceRun_nil pred _ st hq⟩
    | cons n rest =>
      cases hp : pred n with
      | false =>
        exact ⟨_, traceRun_stop pred fuel st n rest hq hp⟩
      | true =>
        by_cases hv : n ∈ st.nodesVisited
        · rw [traceRun_visited pred fuel st n rest hq hp hv]
          refine ih _ (fun x hx => hqT x (by simp [hq, hx])) hvT hL ?_
          unfold stMeasure at hm ⊢
          simp only [hq] at hm
          simp only [List.length_cons] at hm ⊢
          omega
        · rw [traceRun_new pred fuel st n rest hq hp hv]
          have hnT : n ∈ T := hqT n (by simp [hq])
          have hacc1 : (st.gnodes.access [] n).1 = st.gnodes.getD [] n :=
            access_fst st.gnodes [] n
          -- the pushed neighbors stay inside T
          have hpush : ∀ x ∈ (st.gnodes.access [] n).1, x ∈ T := by
            intro x hx
            rw [hacc1] at hx
            exact hvT x (mem_getD_mem_valueNodeList st.gnodes n x hx)
          refine ih _ ?_ ?_ ?_ ?_
          · intro x hx
            simp only [List.mem_append, List.mem_reverse] at hx
            rcases hx with hx | hx
            · exact hpush x hx
            · exact hqT x (by simp [hq, hx])
          · intro x hx
            rw [access_valueNodeList] at hx
            exact hvT x hx
          · rw [access_maxValLen]; exact hL
          · -- the measure dropped by at least two
            unfold stMeasure at hm ⊢
            simp only [hq, List.length_cons] at hm
            simp only [List.length_append, List.length_reverse, sadd_toFinset]
            have hnV : n ∉ st.nodesVisited.toFinset := by
              simp [List.mem_toFinset, hv]
            have hsd : T \ insert n st.nodesVisited.toFinset =
                (T \ st.nodesVisited.toFinset).erase n := by
              ext a
              simp only [Finset.mem_sdiff, Finset.mem_insert, Finset.mem_erase]
              tauto
            have hmem : n ∈ T \ st.nodesVisited.toFinset :=
              Finset.mem_sdiff.mpr ⟨hnT, hnV⟩
            have hcard : (T \ st.nodesVisited.toFinset).card =
                ((T \ st.nodesVisited.toFinset).erase n).card + 1 := by
              rw [Finset.card_erase_of_mem hmem]
              have := Finset.card_pos.mpr ⟨n, hmem⟩
              omega
            rw [hsd]
            have hlen : (st.gnodes.access [] n).1.length ≤ L := by
              rw [hacc1]
              exact le_trans (getD_length_le_maxValLen st.gnodes n) hL
            rw [hcard, Nat.mul_add, Nat.mul_one] at hm
            omega

theorem trace_total (g : Graph) (pred : Val → Bool) (first : Val) :
    ∃ fin, traceOpt g pred first = some fin := by
  unfold traceOpt
  refine traceRun_some pred g.nodes.maxValLen
      (insert first g.nodes.valueNodeList.toFinset) (fuelBound g first)
      (initState g first) ?_ ?_ ?_ ?_
  · intro x hx
    simp only [initState, List.mem_singleton] at hx
    simp [hx]
  · intro x hx
    simp [initState] at hx ⊢
    exact Or.inr hx
  · simp [initState]
  · unfold stMeasure fuelBound initState
    simp only [List.toFinset_nil, Finset.sdiff_empty, List.length_singleton]
    have hcard : (insert first g.nodes.valueNodeList.toFinset).card ≤
        g.nodes.valueNodeList.dedup.length + 1 := by
      have := Finset.card_insert_le first g.nodes.valueNodeList.toFinset
      rw [List.card_toFinset] at this
      exact this
    have := Nat.mul_le_mul_left (g.nodes.maxValLen + 1) hcard
    omega

/-! ### The loop changes the graph dictionaries only as total functions -/

theorem mem_sadd (s : List Val) (x y : Val) : y ∈ sadd s x ↔ y ∈ s ∨ y = x := by
  unfold sadd
  by_cases h : x ∈ s
  · simp only [h, if_true]
    constructor
    · exact Or.inl
    · rintro (hy | rfl)
      · exact hy
      · exact h
  · simp [h]

theorem traceRun_graph_getD (pred : Val → Bool) :
    ∀ fuel st fin, traceRun pred fuel st = some fin →
      (∀ k, fin.gnodes.getD [] k = st.gnodes.getD [] k) ∧
      (∀ k, fin.gpipes.getD [] k = st.gpipes.getD [] k) := by
  intro fuel
  induction fuel with
  | zero =>
    intro st fin h
    cases hq : st.queue with
    | nil =>
      rw [traceRun_nil pred 0 st hq] at h
      cases h
      exact ⟨fun k => rfl, fun k => rfl⟩
    | cons n rest =>
      rw [traceRun, hq] at h
      cases h
  | succ fuel ih =>
    intro st fin h
    cases hq : st.queue with
    | nil =>
      rw [traceRun_nil pred _ st hq] at h
      cases h
      exact ⟨fun k => rfl, fun k => rfl⟩
    | cons n rest =>
      cases hp : pred n with
      | false =>
        rw [traceRun_stop pred fuel st n rest hq hp] at h
        cases h
        exact ⟨fun k => rfl, fun k => rfl⟩
      | true =>
        by_cases hv : n ∈ st.nodesVisited
        · rw [traceRun_visited pred fuel st n rest hq hp hv] at h
          exact ih { st with queue := rest } fin h
        · rw [traceRun_new pred fuel st n rest hq hp hv] at h
          obtain ⟨h1, h2⟩ := ih _ _ h
          refine ⟨fun k => ?_, fun k => ?_⟩
          · rw [h1 k]; exact access_getD st.gnodes n k
          · rw [h2 k]; exact access_getD st.gpipes n k

/-! ### Builder lemmas (`add_edge` appends to exactly one key) -/

theorem appendEntry_find_self {γ : Type} :
    ∀ (l : List (Val × List γ)) (k : Val) (x : γ),
      findEntry (appendEntry l k x) k = some ((findEntry l k).getD [] ++ [x]) := by
  intro l
  induction l with
  | nil => intro k x; simp [appendEntry, findEntry]
  | cons e es ih =>
    intro k x
    by_cases he : e.1 = k
    · simp [appendEntry, findEntry, he]
    · simp [appendEntry, findEntry, he, ih]

theorem appendEntry_find_other {γ : Type} :
    ∀ (l : List (Val × List γ)) (k : Val) (x : γ) (k' : Val), k' ≠ k →
      findEntry (appendEntry l k x) k' = findEntry l k' := by
  intro l
  induction l with
  | nil =>
    intro k x k' hne
    simp only [appendEntry, findEntry]
    rw [if_neg (fun h => hne h.symm)]
  | cons e es ih =>
    intro k x k' hne
    by_cases he : e.1 = k
    · have h1 : e.1 ≠ k' := by rw [he]; exact fun h => hne h.symm
      simp only [appendEntry, if_pos he, findEntry, if_neg h1]
    · by_cases he' : e.1 = k'
      · simp only [appendEntry, if_neg he, findEntry, if_pos he']
      · simp only [appendEntry, if_neg he, findEntry, if_neg he']
        exact ih k x k' hne

/-! ### Serialization (`ExtendedEncoder` / `ExtendedDecoder`)

The encoder side models what `json.dump(graph, f, cls=ExtendedEncoder)`
produces as an abstract JSON tree (`sort_keys=True` only affects the textual
ordering of keys in the file, not the tree handed back by `json.load`, so it
is not modelled).  The decoder side models `json.load(f, cls=ExtendedDecoder)`:
the parser rebuilds the tree bottom-up and applies `object_hook` to every
JSON object, innermost first; an exception raised inside a hook aborts the
whole load. -/

/-- An abstract JSON value. -/
inductive J where
  | jnull
  | jstr (s : String)
  | jint (n : Int)
  | jarr (xs : List J)
  | jobj (kvs : List (String × J))
deriving Repr

/-- `json.dump` stringifies non-string dict keys (integers print in
decimal, matching `str(int)`). -/
def Val.jsonKey : Val → String
  | .s v => v
  | .i v => toString v

/-- A string or integer value serializes to the corresponding JSON scalar. -/
def Val.toJ : Val → J
  | .s v => .jstr v
  | .i v => .jint v

/-- `ExtendedEncoder.default` applied to the class object `list` (a
defaultdict's `default_factory`): `_encode_type` produces
`{"_type": o.__name__}` and `default` adds the discriminator
`o.__class__.__name__`, which for any class is the string `"type"`. -/
def encode_type_list : J :=
  .jobj [("_type", .jstr "list"), ("__extended_json_type__", .jstr "type")]

/-- `ExtendedEncoder._encode_defaultdict` (plus the discriminator added by
`default`): the factory is encoded through `default` (always
`encode_type_list` here, since every dictionary in a `Graph` is a
`defaultdict(list)`), and `dict(o)` serializes with stringified keys. -/
def encode_defaultdict (d : DDict (List Val)) : J :=
  .jobj [("__default_factory__", encode_type_list),
         ("__dict__", .jobj (d.entries.map (fun e => (e.1.jsonKey, .jarr (e.2.map Val.toJ))))),
         ("__extended_json_type__", .jstr "defaultdict")]

/-- `ExtendedEncoder._encode_DIRECTION` plus the discriminator. -/
def encode_DIRECTION (dir : DIRECTION) : J :=
  .jobj [("_direction", .jstr dir.value), ("__extended_json_type__", .jstr "DIRECTION")]

/-- `qgis_fids` is a plain dict, serialized natively by `json.dump` with
stringified keys and no discriminator. -/
def encode_qgis_fids (l : List (Val × Val)) : J :=
  .jobj (l.map (fun e => (e.1.jsonKey, e.2.toJ)))

/-- `ExtendedEncoder._encode_Graph` plus the discriminator: the four encoded
fields (`qgis_parcel_fids` is NOT serialized by the source). -/
def encode_Graph (g : Graph) : J :=
  .jobj [("_direction", encode_DIRECTION g.direction),
         ("_nodes", encode_defaultdict g.nodes),
         ("_pipes", encode_defaultdict g.pipes),
         ("_qgis_fids", encode_qgis_fids g.qgis_fids),
         ("__extended_json_type__", .jstr "Graph")]

/-- A decoded Python value as produced by `ExtendedDecoder`:
JSON scalars/arrays/objects, plus the constructed Python objects
(a builtin type object, a `DIRECTION` member, a `defaultdict`, a `Graph`).
A decoded `Graph` carries the four assigned fields as decoded values
(its `qgis_parcel_fids` is the fresh empty defaultdict made by
`Graph.__init__` and is not represented). -/
inductive PyVal where
  | vnone
  | vstr (s : String)
  | vint (n : Int)
  | vlist (xs : List PyVal)
  | vdict (kvs : List (String × PyVal))
  | vtype (tname : String)
  | vdir (d : DIRECTION)
  | vddict (factory : PyVal) (entries : List (String × PyVal))
  | vgraph (dir nodes pipes qgis : PyVal)
deriving Repr

/-- Association-list lookup with string keys (`obj[k]` on a decoded JSON
object). -/
def findStr {α : Type} : List (String × α) → String → Option α
  | [], _ => none
  | e :: es, k => if e.1 = k then some e.2 else findStr es k

theorem sizeOf_findStr {α : Type} [SizeOf α] :
    ∀ (l : List (String × α)) (k : String) (v : α),
      findStr l k = some v → sizeOf v < sizeOf l := by
  intro l
  induction l with
  | nil => intro k v h; simp [findStr] at h
  | cons e es ih =>
    intro k v h
    by_cases he : e.1 = k
    · simp only [findStr, if_pos he] at h
      cases h
      cases e with
      | mk a b => simp; omega
    · simp only [findStr, if_neg he] at h
      have := ih k v h
      simp
      omega

mutual

/-- `ExtendedDecoder.object_hook`, with the `_decode_*` methods inlined at
their dispatch sites.  `try: name = obj[...]; decoder = getattr(...)` falls
back to returning the object unchanged on `KeyError` (no discriminator),
`AttributeError` (unknown discriminator, or a non-string discriminator whose
f-string spelling names no method) — those are the `.ok (.vdict kvs)` rows.

Branches:
- `"TraceResult"`: `_decode_TraceResult` raises `NotImplementedError`.
- `"defaultdict"`: `_decode_defaultdict` re-hooks `obj["__default_factory__"]`
  and `obj["__dict__"]` and builds `defaultdict(factory, mapping)`; Python's
  `defaultdict` constructor raises `TypeError` unless the factory is callable
  or `None` (of the values this decoder can produce, only a type object or
  `None` qualify); a non-mapping initializer is likewise a `TypeError`.
- `"type"`: `_decode_type` looks the name up in `possible_types`.  The source
  builds that dict keyed by `type(getattr(builtins, b)).__name__`, which is
  the string `"type"` for every builtin class (the metaclass name), so the
  dict has the single key `"type"`; its value is whichever builtin class was
  bound last (`zip`), immaterial here.  The second comprehension iterates
  `globals()` — the key strings, never class objects — and adds nothing.
  Any other name raises `KeyError` with that name; a non-string `"_type"`
  value cannot be a key of the dict either (modelled as `keyErrorOther`).
- `"DIRECTION"`: `_decode_DIRECTION` calls `DIRECTION(value)`, raising
  `ValueError` for anything but the two member values.
- `"Graph"`: `_decode_Graph` builds `Graph(hook(obj["_direction"]))` and
  assigns the re-hooked `_nodes`, `_pipes`, `_qgis_fids`. -/
def objectHook (kvs : List (String × PyVal)) : Except PyError PyVal :=
  match findStr kvs "__extended_json_type__" with
  | some (.vstr tag) =>
    if tag = "TraceResult" then .error .notImplementedError
    else if tag = "defaultdict" then
      match h1 : findStr kvs "__default_factory__" with
      | none => .error (.keyError "__default_factory__")
      | some f =>
        match hookAgain f with
        | .error e => .error e
        | .ok f' =>
          match h2 : findStr kvs "__dict__" with
          | none => .error (.keyError "__dict__")
          | some d =>
            match hookAgain d with
            | .error e => .error e
            | .ok d' =>
              match f', d' with
              | .vtype t, .vdict es => .ok (.vddict (.vtype t) es)
              | .vnone, .vdict es => .ok (.vddict .vnone es)
              | _, _ => .error .typeError
    else if tag = "type" then
      match findStr kvs "_type" with
      | none => .error (.keyError "_type")
      | some (.vstr t) => if t = "type" then .ok (.vtype "zip") else .error (.keyError t)
      | some _ => .error .keyErrorOther
    else if tag = "DIRECTION" then
      match findStr kvs "_direction" with
      | none => .error (.keyError "_direction")
      | some (.vstr v) =>
        if v = "upstream" then .ok (.vdir .U)
        else if v = "downstream" then .ok (.vdir .D)
        else .error .valueError
      | some _ => .error .valueError
    else if tag = "Graph" then
      match h1 : findStr kvs "_direction" with
      | none => .error (.keyError "_direction")
      | some dv =>
        match hookAgain dv with
        | .error e => .error e
        | .ok dv' =>
          match h2 : findStr kvs "_nodes" with
          | none => .error (.keyError "_nodes")
          | some nv =>
            match hookAgain nv with
            | .error e => .error e
            | .ok nv' =>
              match h3 : findStr kvs "_pipes" with
              | none => .error (.keyError "_pipes")
              | some pv =>
                match hookAgain pv with
                | .error e => .error e
                | .ok pv' =>
                  match h4 : findStr kvs "_qgis_fids" with
                  | none => .error (.keyError "_qgis_fids")
                  | some qv =>
                    match hookAgain qv with
                    | .error e => .error e
                    | .ok qv' => .ok (.vgraph dv' nv' pv' qv')
    else .ok (.vdict kvs)
  | some _ => .ok (.vdict kvs)
  | none => .ok (.vdict kvs)
termination_by sizeOf kvs
decreasing_by
  · exact sizeOf_findStr _ _ _ h1
  · exact sizeOf_findStr _ _ _ h2
  · exact sizeOf_findStr _ _ _ h1
  · exact sizeOf_findStr _ _ _ h2
  · exact sizeOf_findStr _ _ _ h3
  · exact sizeOf_findStr _ _ _ h4

/-- `self.object_hook(x)` applied by `_decode_defaultdict` / `_decode_Graph`
to values the parser has already decoded.  For a plain decoded JSON object
(a dict) this is the genuine recursive hook call; for any non-dict value the
subscript `obj["__extended_json_type__"]` raises `TypeError` (or, for an
already-built defaultdict, fabricates a key whose value then names no
`_decode_*` method, an `AttributeError`), all of which `object_hook` catches
by returning the object unchanged. -/
def hookAgain (v : PyVal) : Except PyError PyVal :=
  match v with
  | .vdict kvs => objectHook kvs
  | w => .ok w
termination_by sizeOf v
decreasing_by
  simp_wf

end

mutual

/-- `json.load` with `ExtendedDecoder`: rebuild the value bottom-up,
applying `object_hook` to every JSON object, innermost first; the first
exception aborts the load. -/
def decodeJ : J → Except PyError PyVal
  | .jnull => .ok .vnone
  | .jstr s => .ok (.vstr s)
  | .jint n => .ok (.vint n)
  | .jarr xs =>
    match decodeArr xs with
    | .error e => .error e
    | .ok vs => .ok (.vlist vs)
  | .jobj kvs =>
    match decodeKVs kvs with
    | .error e => .error e
    | .ok dkvs => objectHook dkvs

/-- Decode the elements of a JSON array, left to right. -/
def decodeArr : List J → Except PyError (List PyVal)
  | [] => .ok []
  | x :: xs =>
    match decodeJ x with
    | .error e => .error e
    | .ok v =>
      match decodeArr xs with
      | .error e => .error e
      | .ok vs => .ok (v :: vs)

/-- Decode the entries of a JSON object, in textual order. -/
def decodeKVs : List (String × J) → Except PyError (List (String × PyVal))
  | [] => .ok []
  | (k, x) :: xs =>
    match decodeJ x with
    | .error e => .error e
    | .ok v =>
      match decodeKVs xs with
      | .error e => .error e
      | .ok vs => .ok ((k, v) :: vs)

end

/-- `Graph.to_file`: `json.dump(self, f, cls=ExtendedEncoder, sort_keys=True)`,
modelled as the JSON tree written to the file. -/
def Graph.to_file (g : Graph) : J :=
  encode_Graph g

/-- `Graph.from_file`: `json.load(f, cls=ExtendedDecoder)` on the tree read
back from the file. -/
def Graph.from_file (j : J) : Except PyError PyVal :=
  decodeJ j

/-! ### Cache pointer keys (`gww_nt_processing/graph_helpers.py`)

`GraphHelpers.get_graph_path_custom_property` reads the layer custom
property named `f"gwwnetworktrace_{direction.name}{num_layers}_graph"`
(where `num_layers = len(layers)`), while `GraphHelpers.add_graph_to_layer`
writes the property named `f"gwwnetworktrace_{graph.direction.name}_graph"`.
Only the key strings are modelled; the host's property store is an injected
string-keyed map, so a recorded pointer is found by a later lookup exactly
when the two key strings coincide. -/

/-- The property key read by `GraphHelpers.get_graph_path_custom_property`. -/
def get_graph_path_custom_property_key (direction : DIRECTION) (num_layers : Nat) : String :=
  "gwwnetworktrace_" ++ direction.name ++ toString num_layers ++ "_graph"

/-- The property key written by `GraphHelpers.add_graph_to_layer`. -/
def add_graph_to_layer_key (direction : DIRECTION) : String :=
  "gwwnetworktrace_" ++ direction.name ++ "_graph"

theorem toDigitsCore_length (b : Nat) :
    ∀ (fuel n : Nat) (ds : List Char),
      ds.length ≤ (Nat.toDigitsCore b fuel n ds).length := by
  intro fuel
  induction fuel with
  | zero => intro n ds; simp [Nat.toDigitsCore]
  | succ f ih =>
    intro n ds
    unfold Nat.toDigitsCore
    by_cases h : n / b = 0
    · simp [h]
    · simp only [h, if_neg h]
      calc ds.length ≤ (Nat.digitChar (n % b) :: ds).length := by simp
        _ ≤ _ := ih _ _

theorem toDigitsCore_pos (b : Nat) :
    ∀ (fuel n : Nat) (ds : List Char), 0 < fuel →
      0 < (Nat.toDigitsCore b fuel n ds).length := by
  intro fuel n ds hf
  cases fuel with
  | zero => exact absurd hf (by omega)
  | succ f =>
    unfold Nat.toDigitsCore
    by_cases hd : n / b = 0
    · simp [hd]
    · simp only [hd, if_false]
      have h := toDigitsCore_length b f (n / b) (Nat.digitChar (n % b) :: ds)
      simp only [List.length_cons] at h
      omega

theorem toString_nat_length_pos (n : Nat) : 0 < (toString n).length := by
  have ha : ∀ l : List Char, (l.asString).length = l.length := fun l => rfl
  show 0 < (Nat.repr n).length
  unfold Nat.repr Nat.toDigits
  rw [ha]
  exact toDigitsCore_pos 10 (n + 1) n [] (by omega)

/-! ### `from_dicts` reads only the fields projected from the first record -/

theorem getVals_congr (l l' : Record) :
    ∀ ks : List String, (∀ k ∈ ks, l.get? k = l'.get? k) →
      getVals l ks = getVals l' ks := by
  intro ks
  induction ks with
  | nil => intro _; rfl
  | cons k ks ih =>
    intro h
    have hk := h k (by simp)
    have hrest := ih (fun k' hk' => h k' (by simp [hk']))
    simp only [getVals, hk, hrest]

theorem fromDictsLoop_congr (ks : List String) (link link' : Record)
    (hc : getVals link ks = getVals link' ks) :
    ∀ (pre : List Record) (g : Graph) (post : List Record),
      fromDictsLoop ks g (pre ++ link :: post) =
        fromDictsLoop ks g (pre ++ link' :: post) := by
  intro pre
  induction pre with
  | nil =>
    intro g post
    simp only [List.nil_append, fromDictsLoop, fromDictsStep, hc]
  | cons p ps ih =>
    intro g post
    simp only [List.cons_append, fromDictsLoop]
    cases hs : fromDictsStep g p ks with
    | error e => rfl
    | ok g' => exact ih g' post

/-! ## The specification claims -/

/-- The three-edge record list `[(id=1,start=A,end=B), (id=2,start=B,end=C),
(id=3,start=B,end=D)]` of the spec's two trace scenarios. -/
def scenarioRecords : List Record :=
  [[("PIPE_ID", .i 1), ("START_NODE", .s "A"), ("END_NODE", .s "B")],
   [("PIPE_ID", .i 2), ("START_NODE", .s "B"), ("END_NODE", .s "C")],
   [("PIPE_ID", .i 3), ("START_NODE", .s "B"), ("END_NODE", .s "D")]]

/-- **C2** (confirmed).  Hard-stop semantics of `Trace.trace`: whenever the
loop pops a node `n` for which the stop predicate returns false, the whole
traversal returns at once with `n` added to both `visited_nodes` and
`end_of_path_nodes`, nothing added to the visited pipes, the remaining stack
entries discarded unexplored, and — consequently — every entry still on the
stack that was not already visited (and is not `n` itself) absent from the
returned `visited_nodes`. -/
theorem C2_hard_stop_halts_traversal (pred : Val → Bool) (fuel : Nat)
    (st : LoopState) (n : Val) (rest : List Val)
    (hq : st.queue = n :: rest) (hp : pred n = false) :
    traceRun pred (fuel + 1) st =
      some { st with queue := rest,
                     nodesVisited := sadd st.nodesVisited n,
                     endOfPath := sadd st.endOfPath n } ∧
    ∀ fin, traceRun pred (fuel + 1) st = some fin →
      fin.pipesVisited = st.pipesVisited ∧
      ∀ m, m ∈ rest → m ∉ st.nodesVisited → m ≠ n → m ∉ fin.nodesVisited := by
  refine ⟨traceRun_stop pred fuel st n rest hq hp, ?_⟩
  intro fin hfin
  rw [traceRun_stop pred fuel st n rest hq hp] at hfin
  cases hfin
  refine ⟨rfl, ?_⟩
  intro m _ hnv hne contra
  rcases (mem_sadd st.nodesVisited n m).mp contra with h | h
  · exact hnv h
  · exact hne h

/-- The state and predicate of the spec's hard-stop example: predicate
`node != "X"`, with "X" on top of the stack and an unexplored "Y" below. -/
def c2State : LoopState :=
  ⟨[Val.s "X", Val.s "Y"], [], [], [], ⟨[]⟩, ⟨[]⟩⟩

def c2Pred : Val → Bool := fun v => decide (v ≠ Val.s "X")

/-- Witness for C2 at a concrete state. -/
theorem C2_hard_stop_halts_traversal_witness :
    traceRun c2Pred 1 c2State =
      some { c2State with queue := [Val.s "Y"],
                          nodesVisited := sadd c2State.nodesVisited (Val.s "X"),
                          endOfPath := sadd c2State.endOfPath (Val.s "X") } ∧
    ∀ fin, traceRun c2Pred 1 c2State = some fin →
      fin.pipesVisited = c2State.pipesVisited ∧
      ∀ m, m ∈ [Val.s "Y"] → m ∉ c2State.nodesVisited → m ≠ Val.s "X" →
        m ∉ fin.nodesVisited :=
  C2_hard_stop_halts_traversal c2Pred 0 c2State (Val.s "X") [Val.s "Y"] rfl (by decide)

/-- **C3** (confirmed).  The spec's two concrete scenarios, with the records
fed through `Graph.from_dicts`: building Downstream and tracing from `A`
yields pipes `{1,2,3}`, nodes `{A,B,C,D}`, end-of-path `{C,D}`; building
Upstream and tracing from `C` yields pipes `{1,2}`, nodes `{C,B,A}`,
end-of-path `{A}` (`listSetEq` is Python's extensional set equality). -/
theorem C3_concrete_scenarios :
    (Graph.from_dicts (Graph.init .D) scenarioRecords).map (fun g =>
      (Trace.trace g defaultStop (.s "A")).map (fun p =>
        (listSetEq p.1.pipes [.i 1, .i 2, .i 3],
         listSetEq p.1.nodes [.s "A", .s "B", .s "C", .s "D"],
         listSetEq p.1.end_of_path_nodes [.s "C", .s "D"]))) =
      .ok (some (true, true, true)) ∧
    (Graph.from_dicts (Graph.init .U) scenarioRecords).map (fun g =>
      (Trace.trace g defaultStop (.s "C")).map (fun p =>
        (listSetEq p.1.pipes [.i 1, .i 2],
         listSetEq p.1.nodes [.s "C", .s "B", .s "A"],
         listSetEq p.1.end_of_path_nodes [.s "A"]))) =
      .ok (some (true, true, true)) :=
  ⟨by decide, by decide⟩

/-- **C4** (confirmed).  Direction semantics of `Graph.add_edge` on a bare
edge record (no `qgis_fid`): with direction `U` it appends `start_node` to
`nodes[end_node]` and `pipe_id` to `pipes[end_node]`; with direction `D` it
appends `end_node` to `nodes[start_node]` and `pipe_id` to
`pipes[start_node]`; every other key of `nodes` and `pipes` is untouched, as
are `direction`, `qgis_fids` and `qgis_parcel_fids`. -/
theorem C4_add_edge_direction_semantics (g : Graph) (sn en pid : Val) :
    (g.add_edge sn en pid none).direction = g.direction ∧
    (g.add_edge sn en pid none).qgis_fids = g.qgis_fids ∧
    (g.add_edge sn en pid none).qgis_parcel_fids = g.qgis_parcel_fids ∧
    (g.direction = DIRECTION.U →
      (g.add_edge sn en pid none).nodes.find? en = some (g.nodes.getD [] en ++ [sn]) ∧
      (g.add_edge sn en pid none).pipes.find? en = some (g.pipes.getD [] en ++ [pid]) ∧
      (∀ k, k ≠ en →
        (g.add_edge sn en pid none).nodes.find? k = g.nodes.find? k ∧
        (g.add_edge sn en pid none).pipes.find? k = g.pipes.find? k)) ∧
    (g.direction = DIRECTION.D →
      (g.add_edge sn en pid none).nodes.find? sn = some (g.nodes.getD [] sn ++ [en]) ∧
      (g.add_edge sn en pid none).pipes.find? sn = some (g.pipes.getD [] sn ++ [pid]) ∧
      (∀ k, k ≠ sn →
        (g.add_edge sn en pid none).nodes.find? k = g.nodes.find? k ∧
        (g.add_edge sn en pid none).pipes.find? k = g.pipes.find? k)) := by
  refine ⟨?_, ?_, ?_, ?_, ?_⟩
  · cases hdir : g.direction <;> simp [Graph.add_edge, hdir]
  · cases hdir : g.direction <;> simp [Graph.add_edge, hdir]
  · cases hdir : g.direction <;> simp [Graph.add_edge, hdir]
  · intro hU
    simp only [Graph.add_edge, hU, DDict.find?, DDict.appendVal, DDict.getD]
    exact ⟨appendEntry_find_self g.nodes.entries en sn,
           appendEntry_find_self g.pipes.entries en pid,
           fun k hk => ⟨appendEntry_find_other g.nodes.entries en sn k hk,
                        appendEntry_find_other g.pipes.entries en pid k hk⟩⟩
  · intro hD
    simp only [Graph.add_edge, hD, DDict.find?, DDict.appendVal, DDict.getD]
    exact ⟨appendEntry_find_self g.nodes.entries sn en,
           appendEntry_find_self g.pipes.entries sn pid,
           fun k hk => ⟨appendEntry_find_other g.nodes.entries sn en k hk,
                        appendEntry_find_other g.pipes.entries sn pid k hk⟩⟩

/-- Witness for C4: one upstream and one downstream application on an empty
graph. -/
theorem C4_add_edge_direction_semantics_witness :
    ((Graph.init .U).add_edge (.s "A") (.s "B") (.i 1) none).nodes.find? (.s "B") =
      some ((Graph.init .U).nodes.getD [] (.s "B") ++ [.s "A"]) ∧
    ((Graph.init .D).add_edge (.s "A") (.s "B") (.i 1) none).nodes.find? (.s "A") =
      some ((Graph.init .D).nodes.getD [] (.s "A") ++ [.s "B"]) :=
  ⟨((C4_add_edge_direction_semantics (Graph.init .U) (.s "A") (.s "B") (.i 1)).2.2.2.1 rfl).1,
   ((C4_add_edge_direction_semantics (Graph.init .D) (.s "A") (.s "B") (.i 1)).2.2.2.2 rfl).1⟩

/-- The cyclic record list A→B, B→C, C→A. -/
def cycleRecords : List Record :=
  [[("PIPE_ID", .i 1), ("START_NODE", .s "A"), ("END_NODE", .s "B")],
   [("PIPE_ID", .i 2), ("START_NODE", .s "B"), ("END_NODE", .s "C")],
   [("PIPE_ID", .i 3), ("START_NODE", .s "C"), ("END_NODE", .s "A")]]

/-- **C5** (confirmed).  The trace loop terminates on every graph, start
node and predicate (the computed fuel bound always suffices, so the loop
always reaches its exit condition); in particular on the cyclic graph
A→B→C→A the trace from each of A, B, C returns `visited_nodes = {A,B,C}`. -/
theorem C5_termination_and_cycle :
    (∀ (g : Graph) (pred : Val → Bool) (first : Val),
      ∃ fin, traceOpt g pred first = some fin) ∧
    (Graph.from_dicts (Graph.init .D) cycleRecords).map (fun g =>
      [Val.s "A", Val.s "B", Val.s "C"].map (fun s0 =>
        (Trace.trace g defaultStop s0).map (fun p =>
          listSetEq p.1.nodes [.s "A", .s "B", .s "C"]))) =
      .ok [some true, some true, some true] :=
  ⟨trace_total, by decide⟩

/-- The single-edge downstream graph A→B used to exhibit the trace's
defaultdict mutation. -/
def c6Graph : Graph := (Graph.init .D).add_edge (.s "A") (.s "B") (.i 1) none

/-- **C6** (corrected) — counterexample to the claim as stated.  Tracing
`c6Graph` from A visits B, which is not a key of `nodes`; the defaultdict
reads `nodes[B]` and `pipes[B]` insert empty-list entries for B, so the
graph after the call is not equal to the graph before it: its `nodes`
gained the entry `(B, [])`. -/
theorem C6_counterexample_trace_mutates_graph :
    (Trace.trace c6Graph defaultStop (.s "A")).map
      (fun p => (decide (p.2 = c6Graph), p.2.nodes.entries)) =
      some (false, [(.s "A", [.s "B"]), (.s "B", [])]) := by decide

/-- **C6** (amended).  After `Trace.trace` returns, `direction`,
`qgis_fids` and `qgis_parcel_fids` are exactly what they were, and `nodes`
and `pipes` are unchanged *as total functions* (every lookup with the
empty-list default yields the same value as before); the only in-place
change is that the defaultdict reads performed during the traversal may
insert empty-list entries for visited identifiers that were not keys. -/
theorem C6_trace_frame_amended (g : Graph) (pred : Val → Bool) (first : Val)
    (r : TraceResult) (g' : Graph)
    (h : Trace.trace g pred first = some (r, g')) :
    g'.direction = g.direction ∧ g'.qgis_fids = g.qgis_fids ∧
    g'.qgis_parcel_fids = g.qgis_parcel_fids ∧
    (∀ k, g'.nodes.getD [] k = g.nodes.getD [] k) ∧
    (∀ k, g'.pipes.getD [] k = g.pipes.getD [] k) := by
  unfold Trace.trace at h
  cases hopt : traceOpt g pred first with
  | none => rw [hopt] at h; cases h
  | some fin =>
    rw [hopt] at h
    cases Option.some.inj h
    obtain ⟨h1, h2⟩ :=
      traceRun_graph_getD pred (fuelBound g first) (initState g first) fin hopt
    exact ⟨rfl, rfl, rfl, h1, h2⟩

def c6Result : TraceResult := ⟨[.i 1], [.s "A", .s "B"], [.s "B"]⟩

def c6Graph' : Graph :=
  ⟨.D, ⟨[(.s "A", [.s "B"]), (.s "B", [])]⟩, ⟨[(.s "A", [.i 1]), (.s "B", [])]⟩, [], ⟨[]⟩⟩

/-- Witness for the amended C6 at the concrete single-edge trace. -/
theorem C6_trace_frame_amended_witness :
    c6Graph'.direction = c6Graph.direction ∧
    c6Graph'.qgis_fids = c6Graph.qgis_fids ∧
    c6Graph'.nodes.getD [] (.s "B") = c6Graph.nodes.getD [] (.s "B") ∧
    c6Graph'.pipes.getD [] (.s "B") = c6Graph.pipes.getD [] (.s "B") :=
  have h := C6_trace_frame_amended c6Graph defaultStop (.s "A") c6Result c6Graph'
    (by decide)
  ⟨h.1, h.2.1, h.2.2.2.1 (.s "B"), h.2.2.2.2 (.s "B")⟩

/-- The record of the malformed-input counterexample: `PIPE_ID` missing,
`QGIS_FID` present. -/
def c7Record : Record := [("START_NODE", .s "A"), ("END_NODE", .s "B"), ("QGIS_FID", .i 7)]

/-- **C7** (code_bug).  A record sequence whose records lack the required
field `PIPE_ID` is NOT rejected when the records carry `QGIS_FID`:
`from_dicts` projects the first record's keys, calls
`add_edge("A", "B", 7)`, and silently consumes the `QGIS_FID` value `7`
as the pipe id — the build succeeds, with `pipes["A"] = [7]`, against the
spec's hard-input-error requirement. -/
theorem C7_missing_pipe_id_silently_consumed :
    Graph.from_dicts (Graph.init .D) [c7Record] =
      .ok ⟨.D, ⟨[(.s "A", [.s "B"])]⟩, ⟨[(.s "A", [.i 7])]⟩, [], ⟨[]⟩⟩ := by decide

/-- **C8** (confirmed).  Tracing from a start node that is not a key of the
graph's adjacency (nor of its pipe mapping, which the data-model invariant
keeps key-identical to the adjacency) does not raise: the defaultdict read
yields the empty neighbor list, and the result has `visited_nodes = {s}`,
`end_of_path_nodes = {s}` and no visited pipes. -/
theorem C8_unknown_start_trivial_result (g : Graph) (s0 : Val)
    (h1 : g.nodes.find? s0 = none) (h2 : g.pipes.find? s0 = none) :
    (Trace.trace g defaultStop s0).map Prod.fst = some ⟨[], [s0], [s0]⟩ := by
  have ha1 : g.nodes.access [] s0 = ([], ⟨g.nodes.entries ++ [(s0, [])]⟩) := by
    unfold DDict.access
    rw [h1]
  have ha2 : g.pipes.access [] s0 = ([], ⟨g.pipes.entries ++ [(s0, [])]⟩) := by
    unfold DDict.access
    rw [h2]
  unfold Trace.trace traceOpt fuelBound
  rw [traceRun_new defaultStop _ (initState g s0) s0 [] rfl rfl (by simp [initState])]
  rw [show (initState g s0).gnodes = g.nodes from rfl,
      show (initState g s0).gpipes = g.pipes from rfl, ha1, ha2]
  rw [traceRun_nil _ _ _ (by simp)]
  simp [initState, sadd, supdate]

def c8Graph : Graph := (Graph.init .D).add_edge (.s "A") (.s "B") (.i 1) none

/-- Witness for C8: the unknown identifier Z on the single-edge graph. -/
theorem C8_unknown_start_trivial_result_witness :
    (Trace.trace c8Graph defaultStop (.s "Z")).map Prod.fst =
      some ⟨[], [.s "Z"], [.s "Z"]⟩ :=
  C8_unknown_start_trivial_result c8Graph (.s "Z") (by decide) (by decide)

/-- **C1** (code_bug).  The serialization round trip never succeeds, let
alone returns an equal graph: `Graph.to_file` always embeds the
`defaultdict` factory as the tagged type object `{"_type": "list"}`, and
`ExtendedDecoder._decode_type` looks `"list"` up in a dictionary whose
every key is `"type"` (it is keyed by `type(cls).__name__`, the metaclass
name, for each builtin class), so `Graph.from_file(Graph.to_file(g))`
raises `KeyError('list')` for every graph `g` — including the empty graph,
and regardless of direction, edges or enrichment. -/
theorem C1_roundtrip_always_raises_keyError (g : Graph) :
    Graph.from_file (Graph.to_file g) = .error (.keyError "list") := by
  cases g with
  | mk dir nodes pipes qgis parcel =>
    cases dir <;>
      simp [Graph.from_file, Graph.to_file, encode_Graph, encode_DIRECTION,
        encode_defaultdict, encode_type_list, encode_qgis_fids, decodeJ,
        decodeKVs, decodeArr, objectHook, hookAgain, findStr, DIRECTION.value]

/-- **C9** (code_bug).  The custom-property key under which
`add_graph_to_layer` records a saved graph's location and the key that
`get_graph_path_custom_property` reads during lookup differ for every
direction and layer count: the writer omits the `num_layers` component that
the reader includes, so a recorded pointer is never found again. -/
theorem C9_cache_pointer_key_mismatch (direction : DIRECTION) (num_layers : Nat) :
    get_graph_path_custom_property_key direction num_layers ≠
      add_graph_to_layer_key direction := by
  intro h
  have hlen := congrArg String.length h
  have hpos := toString_nat_length_pos num_layers
  have eU : ("gwwnetworktrace_U" : String).length = 17 := rfl
  have eD : ("gwwnetworktrace_D" : String).length = 17 := rfl
  have eG : ("_graph" : String).length = 6 := rfl
  have eU2 : ("gwwnetworktrace_U_graph" : String).length = 23 := rfl
  have eD2 : ("gwwnetworktrace_D_graph" : String).length = 23 := rfl
  cases direction <;>
    (simp [get_graph_path_custom_property_key, add_graph_to_layer_key,
      DIRECTION.name, String.length_append] at hlen
     simp only [eU, eD, eG, eU2, eD2] at hlen
     omega)

/-- Witness for C9 at the concrete pipes-only downstream configuration
(`direction = D`, one layer). -/
theorem C9_cache_pointer_key_mismatch_witness :
    get_graph_path_custom_property_key .D 1 ≠ add_graph_to_layer_key .D :=
  C9_cache_pointer_key_mismatch .D 1

/-- **C10** (confirmed).  `Graph.from_dicts` on the empty record sequence
raises `StopIteration` (from `next(iter(links))`) instead of returning the
graph unchanged; and the set of fields read from every record is determined
solely by the keys of the first record: replacing a later record by one
that agrees with it on the first record's projected keys leaves the entire
build result unchanged. -/
theorem C10_empty_raises_and_first_record_projects (g : Graph)
    (first : Record) (pre post : List Record) (link link' : Record)
    (hc : ∀ k ∈ usedKeys first, link.get? k = link'.get? k) :
    Graph.from_dicts g [] = .error .stopIteration ∧
    Graph.from_dicts g (first :: (pre ++ link :: post)) =
      Graph.from_dicts g (first :: (pre ++ link' :: post)) := by
  refine ⟨rfl, ?_⟩
  unfold Graph.from_dicts
  have h := fromDictsLoop_congr (usedKeys first) link link'
    (getVals_congr link link' (usedKeys first) hc) (first :: pre) g post
  simpa using h

def c10First : Record := [("PIPE_ID", .i 1), ("START_NODE", .s "A"), ("END_NODE", .s "B")]

def c10Link : Record :=
  [("PIPE_ID", .i 2), ("START_NODE", .s "B"), ("END_NODE", .s "C"), ("GEOM", .s "wkt1")]

def c10Link' : Record :=
  [("PIPE_ID", .i 2), ("START_NODE", .s "B"), ("END_NODE", .s "C"), ("GEOM", .s "wkt2")]

/-- Witness for C10: two record lists differing only in a field the first
record does not project. -/
theorem C10_empty_raises_and_first_record_projects_witness :
    Graph.from_dicts (Graph.init .D) [] = .error .stopIteration ∧
    Graph.from_dicts (Graph.init .D) (c10First :: ([] ++ c10Link :: [])) =
      Graph.from_dicts (Graph.init .D) (c10First :: ([] ++ c10Link' :: [])) :=
  C10_empty_raises_and_first_record_projects (Graph.init .D) c10First [] []
    c10Link c10Link' (by decide)

end GwwTrace
